import Mathlib

/-!
Calliope DAL drivers: `MicroBitI2C` and `CalliopeRGB`.

A shallow embedding of `source/drivers/MicroBitI2C.cpp` and
`source/drivers/CalliopeRGB.cpp`, followed by the properties established
about them.

Conventions of the embedding.

* Hardware accesses (register writes, delays, NOPs, calls of the wrapped
  mbed primitive) are recorded, in program order, in an event trace.
* The wrapped primitive `I2C::read` / `I2C::write` is external.  Its behaviour
  during one call of the wrapper is an arbitrary function `prim : Nat → Int`:
  `prim n` is the value returned by invocation number `n` (counted from 0) of
  the primitive inside that call.
* `MICROBIT_I2C_MAX_RETRIES` comes from `MicroBitConfig.h`, which is not part
  of the sources; it is a parameter (`MAX_RETRIES`) throughout.
* The member `retries` is declared in `MicroBitI2C.h`, which is not part of the
  sources; it is a natural number.  The loop guard `retries < MAX_RETRIES`
  precedes every increment, so the counter never passes `MAX_RETRIES` once it
  is at most `MAX_RETRIES`.
* Unsigned machine integers are natural numbers; reductions modulo `2^w` are
  written out where the source computes in a fixed width.
-/

namespace MicroBitI2C

/-- Modelled from the spec: `ErrorNo.h` is not part of the sources.  The
success status returned by `read` / `write`. -/
def MICROBIT_OK : Int := 0

/-- Modelled from the spec: `ErrorNo.h` is not part of the sources.  The
bus-error status, distinct from `MICROBIT_OK`. -/
def MICROBIT_I2C_ERROR : Int := -1010

/-- Value written to the `ENABLE` register of the TWI peripheral: one of
`TWI_ENABLE_ENABLE_Disabled << TWI_ENABLE_ENABLE_Pos` and
`TWI_ENABLE_ENABLE_Enabled << TWI_ENABLE_ENABLE_Pos`. -/
inductive TwiEnable where
  | Disabled
  | Enabled
deriving DecidableEq, Repr

/-- Hardware events issued by `MicroBitI2C::read` and `MicroBitI2C::write`.
The buffer pointer `data` is represented by a natural number. -/
inductive Event where
  | I2C_read (address : Int) (data : Nat) (length : Int) (repeated : Bool)
  | I2C_write (address : Int) (data : Nat) (length : Int) (repeated : Bool)
  | EVENTS_ERROR (v : Nat)
  | ENABLE (v : TwiEnable)
  | POWER (v : Nat)
  | nrf_delay_us (us : Nat)
  | twi_master_init_and_clear
deriving DecidableEq, Repr

/-- The statements of the body of the recovery loop that precede the re-issued
transaction (lines 54-60 of `read`, 92-99 of `write`). -/
def resetSequence : List Event :=
  [Event.EVENTS_ERROR 0,
   Event.ENABLE TwiEnable.Disabled,
   Event.POWER 0,
   Event.nrf_delay_us 5,
   Event.POWER 1,
   Event.ENABLE TwiEnable.Enabled,
   Event.twi_master_init_and_clear]

/-- Local and member variables live across the recovery loop: the local
`result`, the member `retries`, the number of primitive invocations made so
far in this call, and the trace of hardware events so far. -/
structure Run where
  result : Int
  retries : Nat
  calls : Nat
  trace : List Event
deriving DecidableEq, Repr

/-- What a call of `read` / `write` leaves behind: the returned status, the
member `retries` on return, the number of primitive invocations made and the
trace of hardware events of the call. -/
structure Ret where
  status : Int
  retries : Nat
  calls : Nat
  trace : List Event
deriving DecidableEq, Repr

/-- The `while(result != 0 && retries < MICROBIT_I2C_MAX_RETRIES)` loop of
`MicroBitI2C::read`. -/
def readLoop (MAX_RETRIES : Nat) (prim : Nat → Int)
    (address : Int) (data : Nat) (length : Int) (repeated : Bool) (st : Run) : Run :=
  if st.result ≠ 0 ∧ st.retries < MAX_RETRIES then
    readLoop MAX_RETRIES prim address data length repeated
      { result := prim st.calls
        retries := st.retries + 1
        calls := st.calls + 1
        trace := st.trace ++ resetSequence ++ [Event.I2C_read address data length repeated] }
  else st
termination_by MAX_RETRIES - st.retries
decreasing_by
  simp_wf
  omega

/-- The function `MicroBitI2C::read`, called with member `retries` equal to
`retries`. -/
def read (MAX_RETRIES : Nat) (prim : Nat → Int) (retries : Nat)
    (address : Int) (data : Nat) (length : Int) (repeated : Bool) : Ret :=
  let st := readLoop MAX_RETRIES prim address data length repeated
    { result := prim 0
      retries := retries
      calls := 1
      trace := [Event.I2C_read address data length repeated] }
  if st.result ≠ 0 then
    { status := MICROBIT_I2C_ERROR, retries := st.retries, calls := st.calls, trace := st.trace }
  else
    { status := MICROBIT_OK, retries := 0, calls := st.calls, trace := st.trace }

/-- The `while(result != 0 && retries < MICROBIT_I2C_MAX_RETRIES)` loop of
`MicroBitI2C::write`. -/
def writeLoop (MAX_RETRIES : Nat) (prim : Nat → Int)
    (address : Int) (data : Nat) (length : Int) (repeated : Bool) (st : Run) : Run :=
  if st.result ≠ 0 ∧ st.retries < MAX_RETRIES then
    writeLoop MAX_RETRIES prim address data length repeated
      { result := prim st.calls
        retries := st.retries + 1
        calls := st.calls + 1
        trace := st.trace ++ resetSequence ++ [Event.I2C_write address data length repeated] }
  else st
termination_by MAX_RETRIES - st.retries
decreasing_by
  simp_wf
  omega

/-- The function `MicroBitI2C::write`, called with member `retries` equal to
`retries`. -/
def write (MAX_RETRIES : Nat) (prim : Nat → Int) (retries : Nat)
    (address : Int) (data : Nat) (length : Int) (repeated : Bool) : Ret :=
  let st := writeLoop MAX_RETRIES prim address data length repeated
    { result := prim 0
      retries := retries
      calls := 1
      trace := [Event.I2C_write address data length repeated] }
  if st.result ≠ 0 then
    { status := MICROBIT_I2C_ERROR, retries := st.retries, calls := st.calls, trace := st.trace }
  else
    { status := MICROBIT_OK, retries := 0, calls := st.calls, trace := st.trace }

/-- The primitive fails (nonzero result) on exactly its first `k` invocations
and succeeds on the next one. -/
def FailsThenSucceeds (prim : Nat → Int) (k : Nat) : Prop :=
  (∀ i, i < k → prim i ≠ 0) ∧ prim k = 0

/-- The trace of a call that invoked the primitive `n + 1` times: the first
transaction `xfer`, then `n` times a reset sequence followed by `xfer`. -/
def retryTrace (xfer : Event) (n : Nat) : List Event :=
  xfer :: (List.replicate n (resetSequence ++ [xfer])).flatten

/-- The value of the local `result` after `j` iterations of the recovery loop
entered in state `st`. -/
def resultAfter (prim : Nat → Int) (st : Run) (j : Nat) : Int :=
  if j = 0 then st.result else prim (st.calls + j - 1)

instance (prim : Nat → Int) (k : Nat) : Decidable (FailsThenSucceeds prim k) := by
  unfold FailsThenSucceeds
  infer_instance

end MicroBitI2C

/-- Hardware and library events issued by the `CalliopeRGB` driver on its pin
`CALLIOPE_PIN_RGB`: writes of the pin bit to the `OUTSET` / `OUTCLR` registers,
delays, single `NOP` instructions, the debug print of `Send_to_LED`, and the
calls made by the constructor. -/
inductive PinEvent where
  | OUTCLR
  | OUTSET
  | nrf_delay_us (us : Nat)
  | NOP
  | printf (red green blue white : Nat)
  | nrf_gpio_cfg_output
  | nrf_gpio_pin_clear
  | system_timer_add_component
deriving DecidableEq, Repr

/-- Member variables of the class `CalliopeRGB` (declared in `CalliopeRGB.h`,
which is not part of the sources): `uint8_t GRBW[4]`, the channel values in the
order green, red, blue, white, and the lit flag `state`. -/
structure CalliopeRGB where
  GRBW : Fin 4 → Nat
  state : Nat

namespace CalliopeRGB

def RGB_LED_DEFAULT_GREEN : Nat := 0
def RGB_LED_DEFAULT_RED : Nat := 0
def RGB_LED_DEFAULT_BLUE : Nat := 0
def RGB_LED_DEFAULT_WHITE : Nat := 0
def RGB_LED_MAX_INTENSITY : Nat := 255

/-- The values taken by `i` in `for(uint8_t i=0; i<4; i++)`. -/
def channelOrder : List (Fin 4) := [0, 1, 2, 3]

/-- The values taken by `j` in `for(int8_t j=7; j>-1; j--)`. -/
def bitOrder : List Nat := [7, 6, 5, 4, 3, 2, 1, 0]

/-- The loop `for(uint8_t i=0; i<4; i++) if(GRBW[i] > RGB_LED_MAX_INTENSITY)
GRBW[i] = RGB_LED_MAX_INTENSITY;`. -/
def checkIntensity (GRBW : Fin 4 → Nat) : Fin 4 → Nat :=
  channelOrder.foldl
    (fun a i => if a i > RGB_LED_MAX_INTENSITY then Function.update a i RGB_LED_MAX_INTENSITY
      else a)
    GRBW

/-- The body of the inner loop of `Send_to_LED` for channel value `c` and bit
index `j`: the branch on `GRBW[i] & (1 << j)`. -/
def sendBit (c : Nat) (j : Nat) : List PinEvent :=
  if c &&& (1 <<< j) ≠ 0 then
    [PinEvent.OUTSET,
     PinEvent.NOP, PinEvent.NOP, PinEvent.NOP, PinEvent.NOP, PinEvent.NOP,
     PinEvent.NOP, PinEvent.NOP, PinEvent.NOP, PinEvent.NOP,
     PinEvent.OUTCLR]
  else
    [PinEvent.OUTSET,
     PinEvent.NOP,
     PinEvent.OUTCLR,
     PinEvent.NOP, PinEvent.NOP, PinEvent.NOP, PinEvent.NOP,
     PinEvent.NOP, PinEvent.NOP, PinEvent.NOP, PinEvent.NOP]

/-- The function `CalliopeRGB::Send_to_LED`: the state on return and the events
issued. -/
def Send_to_LED (self : CalliopeRGB) : CalliopeRGB × List PinEvent :=
  let events :=
    [PinEvent.OUTCLR, PinEvent.nrf_delay_us 50,
     PinEvent.printf (self.GRBW 1) (self.GRBW 0) (self.GRBW 2) (self.GRBW 3)] ++
    channelOrder.flatMap (fun i => bitOrder.flatMap (fun j => sendBit (self.GRBW i) j))
  let temp := (self.GRBW 0 + self.GRBW 1 + self.GRBW 2 + self.GRBW 3) % 65536
  ({ self with state := if temp > 0 then 1 else 0 }, events)

/-- The constructor `CalliopeRGB::CalliopeRGB`. -/
def new : CalliopeRGB × List PinEvent :=
  let GRBW : Fin 4 → Nat := fun _ => 0
  let GRBW := Function.update GRBW 0 RGB_LED_DEFAULT_GREEN
  let GRBW := Function.update GRBW 1 RGB_LED_DEFAULT_RED
  let GRBW := Function.update GRBW 2 RGB_LED_DEFAULT_BLUE
  let GRBW := Function.update GRBW 3 RGB_LED_DEFAULT_WHITE
  ({ GRBW := checkIntensity GRBW, state := 0 },
   [PinEvent.nrf_gpio_cfg_output, PinEvent.nrf_gpio_pin_clear,
    PinEvent.system_timer_add_component])

/-- The function `CalliopeRGB::Set_Color`.  The parameters are `uint8_t` in
the source; callers pass values below 256. -/
def Set_Color (self : CalliopeRGB) (red green blue white : Nat) :
    CalliopeRGB × List PinEvent :=
  let GRBW := Function.update self.GRBW 0 green
  let GRBW := Function.update GRBW 1 red
  let GRBW := Function.update GRBW 2 blue
  let GRBW := Function.update GRBW 3 white
  Send_to_LED { self with GRBW := checkIntensity GRBW }

/-- The function `CalliopeRGB::On`. -/
def On (self : CalliopeRGB) : CalliopeRGB × List PinEvent :=
  Send_to_LED self

/-- The function `CalliopeRGB::Off`. -/
def Off (self : CalliopeRGB) : CalliopeRGB × List PinEvent :=
  let GRBW_temp : Fin 4 → Nat :=
    channelOrder.foldl (fun t i => Function.update t i (self.GRBW i)) (fun _ => 0)
  let zeroed : Fin 4 → Nat :=
    channelOrder.foldl (fun a i => Function.update a i 0) self.GRBW
  let sent := Send_to_LED { self with GRBW := zeroed }
  ({ sent.1 with
      GRBW := channelOrder.foldl (fun a i => Function.update a i (GRBW_temp i)) sent.1.GRBW },
   sent.2)

def Get_Red (self : CalliopeRGB) : Nat := self.GRBW 1

def Get_Green (self : CalliopeRGB) : Nat := self.GRBW 0

def Get_Blue (self : CalliopeRGB) : Nat := self.GRBW 2

def Get_White (self : CalliopeRGB) : Nat := self.GRBW 3

/-- The function `CalliopeRGB::Is_On`. -/
def Is_On (self : CalliopeRGB) : Bool :=
  if self.state ≠ 0 then true else false

/-- A call of one of the mutating public member functions. -/
inductive Op where
  | Set_Color (red green blue white : Nat)
  | On
  | Off
deriving DecidableEq, Repr

/-- The arguments of the call fit the `uint8_t` parameters. -/
def Op.valid : Op → Prop
  | Op.Set_Color red green blue white => red < 256 ∧ green < 256 ∧ blue < 256 ∧ white < 256
  | Op.On => True
  | Op.Off => True

instance (op : Op) : Decidable op.valid := by
  cases op <;> unfold Op.valid <;> infer_instance

/-- The driver state after the call `op`. -/
def step (self : CalliopeRGB) : Op → CalliopeRGB
  | Op.Set_Color red green blue white => (self.Set_Color red green blue white).1
  | Op.On => self.On.1
  | Op.Off => self.Off.1

/-- The driver state after construction followed by the calls `ops`, in order. -/
def run (ops : List Op) : CalliopeRGB :=
  ops.foldl step new.1

/-- The high-long, low-short pulse: 9 NOPs while the pin is high, none after it
is cleared. -/
def onePulse : List PinEvent :=
  [PinEvent.OUTSET] ++ List.replicate 9 PinEvent.NOP ++ [PinEvent.OUTCLR]

/-- The high-short, low-long pulse: 1 NOP while the pin is high, 8 after it is
cleared. -/
def zeroPulse : List PinEvent :=
  [PinEvent.OUTSET, PinEvent.NOP, PinEvent.OUTCLR] ++ List.replicate 8 PinEvent.NOP

/-- Receiver side: classify the pulse at the head of the event stream. -/
def readPulse (evs : List PinEvent) : Option (Bool × List PinEvent) :=
  if evs.take 11 = onePulse then some (true, evs.drop 11)
  else if evs.take 11 = zeroPulse then some (false, evs.drop 11)
  else none

/-- Receiver side: read `n` pulses as bits, first pulse first. -/
def readBits : Nat → List PinEvent → Option (List Bool × List PinEvent)
  | 0, evs => some ([], evs)
  | n + 1, evs =>
    match readPulse evs with
    | none => none
    | some (b, rest) =>
      match readBits n rest with
      | none => none
      | some (bs, rest') => some (b :: bs, rest')

/-- Value of a bit string, most significant bit first. -/
def bitsToByte (bs : List Bool) : Nat :=
  bs.foldl (fun acc b => 2 * acc + b.toNat) 0

/-- Receiver side: read `n` bytes of 8 pulses each. -/
def readBytes : Nat → List PinEvent → Option (List Nat × List PinEvent)
  | 0, evs => some ([], evs)
  | n + 1, evs =>
    match readBits 8 evs with
    | none => none
    | some (bs, rest) =>
      match readBytes n rest with
      | none => none
      | some (cs, rest') => some (bitsToByte bs :: cs, rest')

/-- Receiver side: a frame is the reset condition (pin low, 50 microseconds),
optionally the debug print, then exactly 32 pulses read as four bytes. -/
def decodeFrame : List PinEvent → Option (List Nat)
  | PinEvent.OUTCLR :: PinEvent.nrf_delay_us 50 :: PinEvent.printf _ _ _ _ :: evs =>
    match readBytes 4 evs with
    | some (cs, []) => some cs
    | _ => none
  | _ => none

/-- The lit flag agrees with the stored channel values. -/
def Coherent (s : CalliopeRGB) : Prop :=
  s.Is_On = true ↔ 0 < s.GRBW 0 + s.GRBW 1 + s.GRBW 2 + s.GRBW 3

end CalliopeRGB

namespace MicroBitI2C

theorem readLoop_exit (MAX_RETRIES : Nat) (prim : Nat → Int)
    (address : Int) (data : Nat) (length : Int) (repeated : Bool) (st : Run)
    (h : ¬ (st.result ≠ 0 ∧ st.retries < MAX_RETRIES)) :
    readLoop MAX_RETRIES prim address data length repeated st = st := by
  rw [readLoop, if_neg h]

theorem readLoop_step (MAX_RETRIES : Nat) (prim : Nat → Int)
    (address : Int) (data : Nat) (length : Int) (repeated : Bool) (st : Run)
    (h : st.result ≠ 0 ∧ st.retries < MAX_RETRIES) :
    readLoop MAX_RETRIES prim address data length repeated st =
      readLoop MAX_RETRIES prim address data length repeated
        { result := prim st.calls
          retries := st.retries + 1
          calls := st.calls + 1
          trace := st.trace ++ resetSequence ++ [Event.I2C_read address data length repeated] } := by
  rw [readLoop, if_pos h]

theorem replicate_flatten_succ (xs : List Event) (m : Nat) :
    xs ++ (List.replicate m xs).flatten = (List.replicate (m + 1) xs).flatten := by
  simp [List.replicate_succ]

/-- Closed form of the recovery loop of `read`: it runs some number `m` of
iterations, every one of them entered with a failed `result`, and stops on the
first success or when `retries` reaches the bound. -/
theorem readLoop_spec (MAX_RETRIES : Nat) (prim : Nat → Int)
    (address : Int) (data : Nat) (length : Int) (repeated : Bool) :
    ∀ (n : Nat) (st : Run), MAX_RETRIES - st.retries = n →
      ∃ m, m ≤ MAX_RETRIES - st.retries ∧
        (∀ j, j < m → resultAfter prim st j ≠ 0) ∧
        (resultAfter prim st m = 0 ∨ MAX_RETRIES ≤ st.retries + m) ∧
        readLoop MAX_RETRIES prim address data length repeated st =
          { result := resultAfter prim st m
            retries := st.retries + m
            calls := st.calls + m
            trace := st.trace ++
              (List.replicate m
                (resetSequence ++ [Event.I2C_read address data length repeated])).flatten } := by
  intro n
  induction n with
  | zero =>
    intro st hn
    refine ⟨0, Nat.zero_le _, ?_, ?_, ?_⟩
    · intro j hj; omega
    · right; omega
    · rw [readLoop_exit _ _ _ _ _ _ _ (by omega)]
      simp [resultAfter]
  | succ n ih =>
    intro st hn
    by_cases h : st.result ≠ 0 ∧ st.retries < MAX_RETRIES
    · obtain ⟨m, hm, hfail, hstop, heq⟩ := ih
        { result := prim st.calls
          retries := st.retries + 1
          calls := st.calls + 1
          trace := st.trace ++ resetSequence ++ [Event.I2C_read address data length repeated] }
        (by simp only; omega)
      simp only at hm hstop heq
      refine ⟨m + 1, by omega, ?_, ?_, ?_⟩
      · intro j hj
        rcases Nat.eq_zero_or_pos j with h0 | hpos
        · subst h0; simpa [resultAfter] using h.1
        · have := hfail (j - 1) (by omega)
          rcases Nat.eq_zero_or_pos (j - 1) with h1 | h1
          · have hj1 : j = 1 := by omega
            subst hj1
            simpa [resultAfter] using this
          · have e : st.calls + 1 + (j - 1) - 1 = st.calls + j - 1 := by omega
            simp only [resultAfter, if_neg (Nat.ne_of_gt h1), if_neg (Nat.ne_of_gt hpos), e] at this ⊢
            exact this
      · rcases hstop with hs | hs
        · left
          rcases Nat.eq_zero_or_pos m with h0 | hpos
          · subst h0; simpa [resultAfter] using hs
          · have e : st.calls + 1 + m - 1 = st.calls + (m + 1) - 1 := by omega
            simp only [resultAfter, if_neg (Nat.ne_of_gt hpos), e] at hs
            simp only [resultAfter, if_neg (Nat.succ_ne_zero m)]
            exact hs
        · right; omega
      · rw [readLoop_step _ _ _ _ _ _ _ h, heq]
        have hres : resultAfter prim
            { result := prim st.calls
              retries := st.retries + 1
              calls := st.calls + 1
              trace := st.trace ++ resetSequence ++
                [Event.I2C_read address data length repeated] } m
            = resultAfter prim st (m + 1) := by
          rcases Nat.eq_zero_or_pos m with h0 | hpos
          · subst h0; simp [resultAfter]
          · have e : st.calls + 1 + m - 1 = st.calls + (m + 1) - 1 := by omega
            simp only [resultAfter, if_neg (Nat.ne_of_gt hpos), if_neg (Nat.succ_ne_zero m), e]
        rw [hres, ← replicate_flatten_succ]
        simp [Nat.add_assoc, Nat.add_comm 1 m, List.append_assoc]
    · refine ⟨0, Nat.zero_le _, ?_, ?_, ?_⟩
      · intro j hj; omega
      · by_cases hr : st.result = 0
        · left; simpa [resultAfter] using hr
        · right
          have : ¬ st.retries < MAX_RETRIES := fun hlt => h ⟨hr, hlt⟩
          omega
      · rw [readLoop_exit _ _ _ _ _ _ _ h]
        simp [resultAfter]

theorem writeLoop_exit (MAX_RETRIES : Nat) (prim : Nat → Int)
    (address : Int) (data : Nat) (length : Int) (repeated : Bool) (st : Run)
    (h : ¬ (st.result ≠ 0 ∧ st.retries < MAX_RETRIES)) :
    writeLoop MAX_RETRIES prim address data length repeated st = st := by
  rw [writeLoop, if_neg h]

theorem writeLoop_step (MAX_RETRIES : Nat) (prim : Nat → Int)
    (address : Int) (data : Nat) (length : Int) (repeated : Bool) (st : Run)
    (h : st.result ≠ 0 ∧ st.retries < MAX_RETRIES) :
    writeLoop MAX_RETRIES prim address data length repeated st =
      writeLoop MAX_RETRIES prim address data length repeated
        { result := prim st.calls
          retries := st.retries + 1
          calls := st.calls + 1
          trace := st.trace ++ resetSequence ++ [Event.I2C_write address data length repeated] } := by
  rw [writeLoop, if_pos h]

/-- Closed form of the recovery loop of `write`: it runs some number `m` of
iterations, every one of them entered with a failed `result`, and stops on the
first success or when `retries` reaches the bound. -/
theorem writeLoop_spec (MAX_RETRIES : Nat) (prim : Nat → Int)
    (address : Int) (data : Nat) (length : Int) (repeated : Bool) :
    ∀ (n : Nat) (st : Run), MAX_RETRIES - st.retries = n →
      ∃ m, m ≤ MAX_RETRIES - st.retries ∧
        (∀ j, j < m → resultAfter prim st j ≠ 0) ∧
        (resultAfter prim st m = 0 ∨ MAX_RETRIES ≤ st.retries + m) ∧
        writeLoop MAX_RETRIES prim address data length repeated st =
          { result := resultAfter prim st m
            retries := st.retries + m
            calls := st.calls + m
            trace := st.trace ++
              (List.replicate m
                (resetSequence ++ [Event.I2C_write address data length repeated])).flatten } := by
  intro n
  induction n with
  | zero =>
    intro st hn
    refine ⟨0, Nat.zero_le _, ?_, ?_, ?_⟩
    · intro j hj; omega
    · right; omega
    · rw [writeLoop_exit _ _ _ _ _ _ _ (by omega)]
      simp [resultAfter]
  | succ n ih =>
    intro st hn
    by_cases h : st.result ≠ 0 ∧ st.retries < MAX_RETRIES
    · obtain ⟨m, hm, hfail, hstop, heq⟩ := ih
        { result := prim st.calls
          retries := st.retries + 1
          calls := st.calls + 1
          trace := st.trace ++ resetSequence ++ [Event.I2C_write address data length repeated] }
        (by simp only; omega)
      simp only at hm hstop heq
      refine ⟨m + 1, by omega, ?_, ?_, ?_⟩
      · intro j hj
        rcases Nat.eq_zero_or_pos j with h0 | hpos
        · subst h0; simpa [resultAfter] using h.1
        · have := hfail (j - 1) (by omega)
          rcases Nat.eq_zero_or_pos (j - 1) with h1 | h1
          · have hj1 : j = 1 := by omega
            subst hj1
            simpa [resultAfter] using this
          · have e : st.calls + 1 + (j - 1) - 1 = st.calls + j - 1 := by omega
            simp only [resultAfter, if_neg (Nat.ne_of_gt h1), if_neg (Nat.ne_of_gt hpos), e] at this ⊢
            exact this
      · rcases hstop with hs | hs
        · left
          rcases Nat.eq_zero_or_pos m with h0 | hpos
          · subst h0; simpa [resultAfter] using hs
          · have e : st.calls + 1 + m - 1 = st.calls + (m + 1) - 1 := by omega
            simp only [resultAfter, if_neg (Nat.ne_of_gt hpos), e] at hs
            simp only [resultAfter, if_neg (Nat.succ_ne_zero m)]
            exact hs
        · right; omega
      · rw [writeLoop_step _ _ _ _ _ _ _ h, heq]
        have hres : resultAfter prim
            { result := prim st.calls
              retries := st.retries + 1
              calls := st.calls + 1
              trace := st.trace ++ resetSequence ++
                [Event.I2C_write address data length repeated] } m
            = resultAfter prim st (m + 1) := by
          rcases Nat.eq_zero_or_pos m with h0 | hpos
          · subst h0; simp [resultAfter]
          · have e : st.calls + 1 + m - 1 = st.calls + (m + 1) - 1 := by omega
            simp only [resultAfter, if_neg (Nat.ne_of_gt hpos), if_neg (Nat.succ_ne_zero m), e]
        rw [hres, ← replicate_flatten_succ]
        simp [Nat.add_assoc, Nat.add_comm 1 m, List.append_assoc]
    · refine ⟨0, Nat.zero_le _, ?_, ?_, ?_⟩
      · intro j hj; omega
      · by_cases hr : st.result = 0
        · left; simpa [resultAfter] using hr
        · right
          have : ¬ st.retries < MAX_RETRIES := fun hlt => h ⟨hr, hlt⟩
          omega
      · rw [writeLoop_exit _ _ _ _ _ _ _ h]
        simp [resultAfter]

theorem resultAfter_entry (prim : Nat → Int) (retries : Nat) (trace : List Event) (j : Nat) :
    resultAfter prim { result := prim 0, retries := retries, calls := 1, trace := trace } j
      = prim j := by
  rcases Nat.eq_zero_or_pos j with h0 | hpos
  · subst h0; simp [resultAfter]
  · have e : 1 + j - 1 = j := by omega
    simp only [resultAfter, if_neg (Nat.ne_of_gt hpos), e]

/-- Closed form of `read`: the primitive is invoked `m + 1` times, where the
first `m` invocations failed and either invocation `m` succeeded or the bound
on `retries` was reached. -/
theorem read_spec (MAX_RETRIES : Nat) (prim : Nat → Int) (retries : Nat)
    (address : Int) (data : Nat) (length : Int) (repeated : Bool) :
    ∃ m, m ≤ MAX_RETRIES - retries ∧
      (∀ j, j < m → prim j ≠ 0) ∧
      (prim m = 0 ∨ MAX_RETRIES ≤ retries + m) ∧
      read MAX_RETRIES prim retries address data length repeated =
        { status := if prim m ≠ 0 then MICROBIT_I2C_ERROR else MICROBIT_OK
          retries := if prim m ≠ 0 then retries + m else 0
          calls := 1 + m
          trace := retryTrace (Event.I2C_read address data length repeated) m } := by
  obtain ⟨m, hm, hfail, hstop, heq⟩ := readLoop_spec MAX_RETRIES prim address data length repeated
    (MAX_RETRIES - retries)
    { result := prim 0, retries := retries, calls := 1
      trace := [Event.I2C_read address data length repeated] } rfl
  simp only [resultAfter_entry] at hfail hstop heq
  refine ⟨m, hm, hfail, hstop, ?_⟩
  simp only [read, heq, retryTrace]
  by_cases h : prim m ≠ 0
  · simp [h]
  · simp [h]

/-- Closed form of `write`, as `read_spec`. -/
theorem write_spec (MAX_RETRIES : Nat) (prim : Nat → Int) (retries : Nat)
    (address : Int) (data : Nat) (length : Int) (repeated : Bool) :
    ∃ m, m ≤ MAX_RETRIES - retries ∧
      (∀ j, j < m → prim j ≠ 0) ∧
      (prim m = 0 ∨ MAX_RETRIES ≤ retries + m) ∧
      write MAX_RETRIES prim retries address data length repeated =
        { status := if prim m ≠ 0 then MICROBIT_I2C_ERROR else MICROBIT_OK
          retries := if prim m ≠ 0 then retries + m else 0
          calls := 1 + m
          trace := retryTrace (Event.I2C_write address data length repeated) m } := by
  obtain ⟨m, hm, hfail, hstop, heq⟩ := writeLoop_spec MAX_RETRIES prim address data length repeated
    (MAX_RETRIES - retries)
    { result := prim 0, retries := retries, calls := 1
      trace := [Event.I2C_write address data length repeated] } rfl
  simp only [resultAfter_entry] at hfail hstop heq
  refine ⟨m, hm, hfail, hstop, ?_⟩
  simp only [write, heq, retryTrace]
  by_cases h : prim m ≠ 0
  · simp [h]
  · simp [h]

theorem count_init_resetSequence :
    resetSequence.count Event.twi_master_init_and_clear = 1 := by
  decide

theorem count_init_retryTrace (xfer : Event) (hx : xfer ≠ Event.twi_master_init_and_clear)
    (n : Nat) : (retryTrace xfer n).count Event.twi_master_init_and_clear = n := by
  have hne : (xfer == Event.twi_master_init_and_clear) = false := by
    simpa using hx
  have hblock : (resetSequence ++ [xfer]).count Event.twi_master_init_and_clear = 1 := by
    rw [List.count_append, count_init_resetSequence]
    simp [List.count_cons, hne]
  have hrep : ∀ k : Nat, ((List.replicate k (resetSequence ++ [xfer])).flatten).count
      Event.twi_master_init_and_clear = k := by
    intro k
    induction k with
    | zero => simp
    | succ k ih =>
      rw [List.replicate_succ, List.flatten_cons, List.count_append, hblock, ih]
      omega
  unfold retryTrace
  rw [List.count_cons, hrep]
  simp [hne]

theorem count_xfer_retryTrace (xfer : Event) (hx : xfer ∉ resetSequence)
    (n : Nat) : (retryTrace xfer n).count xfer = n + 1 := by
  have hblock : (resetSequence ++ [xfer]).count xfer = 1 := by
    rw [List.count_append, List.count_eq_zero_of_not_mem hx]
    simp
  have hrep : ∀ k : Nat, ((List.replicate k (resetSequence ++ [xfer])).flatten).count
      xfer = k := by
    intro k
    induction k with
    | zero => simp
    | succ k ih =>
      rw [List.replicate_succ, List.flatten_cons, List.count_append, hblock, ih]
      omega
  unfold retryTrace
  rw [List.count_cons, hrep]
  simp

theorem I2C_read_not_mem_resetSequence (address : Int) (data : Nat) (length : Int)
    (repeated : Bool) : Event.I2C_read address data length repeated ∉ resetSequence := by
  simp [resetSequence]

theorem I2C_write_not_mem_resetSequence (address : Int) (data : Nat) (length : Int)
    (repeated : Bool) : Event.I2C_write address data length repeated ∉ resetSequence := by
  simp [resetSequence]

/-- What the number `m` of loop iterations is when the primitive fails exactly
`k` times and then succeeds: `m = k` if the budget allows, the whole budget
otherwise. -/
theorem iterations_of_failsThenSucceeds (MAX_RETRIES : Nat) (prim : Nat → Int) (k m : Nat)
    (hp : FailsThenSucceeds prim k) (hm : m ≤ MAX_RETRIES)
    (hfail : ∀ j, j < m → prim j ≠ 0) (hstop : prim m = 0 ∨ MAX_RETRIES ≤ m) :
    (k ≤ MAX_RETRIES → m = k) ∧ (MAX_RETRIES < k → m = MAX_RETRIES ∧ prim m ≠ 0) := by
  have hmk : m ≤ k := by
    by_contra hlt
    exact hfail k (by omega) hp.2
  have hzero : prim m = 0 → m = k := by
    intro h0
    by_contra hne
    exact hp.1 m (by omega) h0
  constructor
  · intro hk
    rcases hstop with h0 | hM
    · exact hzero h0
    · omega
  · intro hk
    have hmlt : m < k := by omega
    have hne : prim m ≠ 0 := hp.1 m hmlt
    rcases hstop with h0 | hM
    · exact absurd h0 hne
    · exact ⟨by omega, hne⟩

end MicroBitI2C

namespace CalliopeRGB

theorem checkIntensity_apply (a : Fin 4 → Nat) (i : Fin 4) :
    checkIntensity a i = if a i > 255 then 255 else a i := by
  simp only [checkIntensity, channelOrder, List.foldl, RGB_LED_MAX_INTENSITY]
  fin_cases i <;> simp [Function.update] <;> split_ifs <;> simp_all

theorem checkIntensity_le (a : Fin 4 → Nat) (i : Fin 4) : checkIntensity a i ≤ 255 := by
  rw [checkIntensity_apply]
  split <;> omega

theorem checkIntensity_of_lt (a : Fin 4 → Nat) (i : Fin 4) (h : a i < 256) :
    checkIntensity a i = a i := by
  rw [checkIntensity_apply, if_neg (by omega)]

theorem Send_to_LED_GRBW (s : CalliopeRGB) : (Send_to_LED s).1.GRBW = s.GRBW := rfl

theorem Send_to_LED_state (s : CalliopeRGB) :
    (Send_to_LED s).1.state =
      if (s.GRBW 0 + s.GRBW 1 + s.GRBW 2 + s.GRBW 3) % 65536 > 0 then 1 else 0 := rfl

theorem Is_On_Send_to_LED (s : CalliopeRGB) (h : ∀ i, s.GRBW i ≤ 255) :
    (Send_to_LED s).1.Is_On = true ↔ 0 < s.GRBW 0 + s.GRBW 1 + s.GRBW 2 + s.GRBW 3 := by
  have h0 := h 0
  have h1 := h 1
  have h2 := h 2
  have h3 := h 3
  have hmod : (s.GRBW 0 + s.GRBW 1 + s.GRBW 2 + s.GRBW 3) % 65536
      = s.GRBW 0 + s.GRBW 1 + s.GRBW 2 + s.GRBW 3 := Nat.mod_eq_of_lt (by omega)
  simp only [Is_On, Send_to_LED_state, hmod]
  by_cases hs : 0 < s.GRBW 0 + s.GRBW 1 + s.GRBW 2 + s.GRBW 3
  · simp [hs]
  · simp [hs]

theorem Set_Color_GRBW (s : CalliopeRGB) (red green blue white : Nat) (i : Fin 4) :
    (s.Set_Color red green blue white).1.GRBW i =
      checkIntensity (fun k => if k = 0 then green else if k = 1 then red
        else if k = 2 then blue else white) i := by
  have : (Function.update (Function.update (Function.update (Function.update s.GRBW
      0 green) 1 red) 2 blue) 3 white)
      = (fun k => if k = 0 then green else if k = 1 then red
        else if k = 2 then blue else white) := by
    funext k
    fin_cases k <;> simp [Function.update]
  simp only [Set_Color, Send_to_LED_GRBW, this]

theorem Off_GRBW (s : CalliopeRGB) : s.Off.1.GRBW = s.GRBW := by
  funext i
  simp only [Off, channelOrder, List.foldl]
  fin_cases i <;> simp [Function.update]

theorem Off_zeroed (s : CalliopeRGB) :
    channelOrder.foldl (fun a i => Function.update a i 0) s.GRBW = fun _ => 0 := by
  funext i
  simp only [channelOrder, List.foldl]
  fin_cases i <;> simp [Function.update]

theorem Off_state (s : CalliopeRGB) : s.Off.1.state = 0 := by
  simp only [Off, Off_zeroed, Send_to_LED_state]
  simp

theorem Off_events (s : CalliopeRGB) :
    s.Off.2 = (Send_to_LED { GRBW := fun _ => 0, state := 0 }).2 := by
  simp only [Off, Off_zeroed, Send_to_LED]

theorem Is_On_Set_Color_iff (s : CalliopeRGB) (red green blue white : Nat) :
    (s.Set_Color red green blue white).1.Is_On = true ↔
      0 < (s.Set_Color red green blue white).1.GRBW 0 +
          (s.Set_Color red green blue white).1.GRBW 1 +
          (s.Set_Color red green blue white).1.GRBW 2 +
          (s.Set_Color red green blue white).1.GRBW 3 :=
  Is_On_Send_to_LED _ (fun i => checkIntensity_le _ i)

set_option maxRecDepth 100000 in
theorem zero_frame_events :
    (Send_to_LED { GRBW := fun _ => 0, state := 0 }).2 =
      [PinEvent.OUTCLR, PinEvent.nrf_delay_us 50, PinEvent.printf 0 0 0 0] ++
        (List.replicate 32 zeroPulse).flatten := by
  decide

set_option maxRecDepth 100000 in
theorem zero_frame_decodes :
    decodeFrame (Send_to_LED { GRBW := fun _ => 0, state := 0 }).2 = some [0, 0, 0, 0] := by
  decide

theorem run_concat (ops : List Op) (op : Op) : run (ops ++ [op]) = step (run ops) op := by
  simp [run, List.foldl_append]

theorem new_GRBW (i : Fin 4) : new.1.GRBW i = 0 := by
  fin_cases i <;> decide

theorem run_GRBW_le (ops : List Op) : ∀ i, (run ops).GRBW i ≤ 255 := by
  induction ops using List.reverseRecOn with
  | nil =>
    intro i
    have : (run []).GRBW i = new.1.GRBW i := rfl
    rw [this, new_GRBW]
    omega
  | append_singleton ops op ih =>
    intro i
    rw [run_concat]
    cases op with
    | Set_Color red green blue white =>
      simp only [step, Set_Color_GRBW]
      exact checkIntensity_le _ i
    | On => exact ih i
    | Off =>
      simp only [step, Off_GRBW]
      exact ih i

theorem run_coherent (ops : List Op) (h : ops.getLast? ≠ some Op.Off) : Coherent (run ops) := by
  induction ops using List.reverseRecOn with
  | nil =>
    have h1 : (run []).Is_On = false := by decide
    have hG : ∀ i, (run []).GRBW i = 0 := fun i => new_GRBW i
    simp [Coherent, h1, hG]
  | append_singleton ops op _ =>
    rw [run_concat]
    cases op with
    | Set_Color red green blue white => exact Is_On_Set_Color_iff _ _ _ _ _
    | On => exact Is_On_Send_to_LED _ (run_GRBW_le ops)
    | Off => simp at h

theorem Off_On_GRBW (s : CalliopeRGB) : s.Off.1.On.1.GRBW = s.GRBW := by
  simp only [On, Send_to_LED_GRBW, Off_GRBW]

theorem Off_On_Is_On (s : CalliopeRGB) (h : ∀ i, s.GRBW i ≤ 255) :
    s.Off.1.On.1.Is_On = true ↔ 0 < s.GRBW 0 + s.GRBW 1 + s.GRBW 2 + s.GRBW 3 := by
  have := Is_On_Send_to_LED s.Off.1 (by rw [Off_GRBW]; exact h)
  rw [Off_GRBW] at this
  exact this

theorem land_shiftLeft_ne_zero_iff (c j : Nat) : c &&& (1 <<< j) ≠ 0 ↔ c.testBit j = true := by
  rw [Nat.one_shiftLeft, Nat.and_two_pow]
  cases c.testBit j <;> simp

theorem sendBit_eq (c j : Nat) :
    sendBit c j = if c.testBit j = true then onePulse else zeroPulse := by
  unfold sendBit
  by_cases h : c.testBit j = true
  · rw [if_pos ((land_shiftLeft_ne_zero_iff c j).2 h), if_pos h]
    rfl
  · rw [if_neg (fun hc => h ((land_shiftLeft_ne_zero_iff c j).1 hc)), if_neg h]
    rfl

theorem readPulse_sendBit (c j : Nat) (rest : List PinEvent) :
    readPulse (sendBit c j ++ rest) = some (c.testBit j, rest) := by
  rw [sendBit_eq]
  by_cases h : c.testBit j = true
  · simp [h, readPulse, onePulse, List.replicate]
  · simp [h, readPulse, onePulse, zeroPulse, List.replicate]

theorem readBits_sendByte (c : Nat) (rest : List PinEvent) :
    readBits 8 (bitOrder.flatMap (fun j => sendBit c j) ++ rest) =
      some (bitOrder.map (fun j => c.testBit j), rest) := by
  simp only [bitOrder, List.flatMap, List.map, List.flatten, List.append_assoc, List.append_nil,
    readBits, readPulse_sendBit]

set_option maxRecDepth 100000 in
theorem bitsToByte_testBit : ∀ c, c < 256 → bitsToByte (bitOrder.map (fun j => c.testBit j)) = c := by
  decide

theorem readBytes_frame (a : Fin 4 → Nat) (h : ∀ i, a i < 256) :
    readBytes 4 (channelOrder.flatMap (fun i => bitOrder.flatMap (fun j => sendBit (a i) j))) =
      some ([a 0, a 1, a 2, a 3], []) := by
  have e : channelOrder.flatMap (fun i => bitOrder.flatMap (fun j => sendBit (a i) j)) =
      bitOrder.flatMap (fun j => sendBit (a 0) j) ++
      (bitOrder.flatMap (fun j => sendBit (a 1) j) ++
      (bitOrder.flatMap (fun j => sendBit (a 2) j) ++
      (bitOrder.flatMap (fun j => sendBit (a 3) j) ++ []))) := by
    simp [channelOrder, List.flatMap]
  rw [e]
  simp only [readBytes, readBits_sendByte, bitsToByte_testBit _ (h _)]

end CalliopeRGB

namespace MicroBitI2C

/-- C1: if the retry counter is 0 on entry and the primitive fails on exactly
its first `k` invocations and succeeds on the next, with `k < MAX_RETRIES`,
then `read` and `write` return `MICROBIT_OK` and the retry counter is 0 when
the call returns. -/
theorem read_write_ok_when_failures_below_bound
    (MAX_RETRIES : Nat) (prim : Nat → Int) (k : Nat)
    (address : Int) (data : Nat) (length : Int) (repeated : Bool)
    (hk : k < MAX_RETRIES) (hp : FailsThenSucceeds prim k) :
    (read MAX_RETRIES prim 0 address data length repeated).status = MICROBIT_OK ∧
    (read MAX_RETRIES prim 0 address data length repeated).retries = 0 ∧
    (write MAX_RETRIES prim 0 address data length repeated).status = MICROBIT_OK ∧
    (write MAX_RETRIES prim 0 address data length repeated).retries = 0 := by
  obtain ⟨m, hm, hfail, hstop, heq⟩ :=
    read_spec MAX_RETRIES prim 0 address data length repeated
  obtain ⟨m', hm', hfail', hstop', heq'⟩ :=
    write_spec MAX_RETRIES prim 0 address data length repeated
  have h1 := (iterations_of_failsThenSucceeds MAX_RETRIES prim k m hp (by omega) hfail
    (by simpa using hstop)).1 (by omega)
  have h2 := (iterations_of_failsThenSucceeds MAX_RETRIES prim k m' hp (by omega) hfail'
    (by simpa using hstop')).1 (by omega)
  subst h1
  subst h2
  rw [heq, heq']
  simp [hp.2]

/-- C1, at the scenario of the specification: `MAX_RETRIES = 5` and a
primitive that fails twice and then succeeds. -/
theorem read_write_ok_when_failures_below_bound_witness :
    (2 < 5 ∧ FailsThenSucceeds (fun i => if i < 2 then 1 else 0) 2) ∧
    ((read 5 (fun i => if i < 2 then 1 else 0) 0 8 0 4 false).status = MICROBIT_OK ∧
     (read 5 (fun i => if i < 2 then 1 else 0) 0 8 0 4 false).retries = 0 ∧
     (write 5 (fun i => if i < 2 then 1 else 0) 0 8 0 4 false).status = MICROBIT_OK ∧
     (write 5 (fun i => if i < 2 then 1 else 0) 0 8 0 4 false).retries = 0) :=
  ⟨⟨by decide, by decide⟩,
   read_write_ok_when_failures_below_bound 5 (fun i => if i < 2 then 1 else 0) 2 8 0 4 false
     (by decide) (by decide)⟩

/-- C2 fails as stated at `k = MAX_RETRIES`: with `MAX_RETRIES = 5`, counter 0
on entry and a primitive that fails on exactly its first 5 invocations and
succeeds on the sixth, `read` and `write` return `MICROBIT_OK`, not
`MICROBIT_I2C_ERROR`. -/
theorem read_write_ok_at_exactly_max_failures :
    (5 : Nat) ≥ 5 ∧ FailsThenSucceeds (fun i => if i < 5 then 1 else 0) 5 ∧
    (read 5 (fun i => if i < 5 then 1 else 0) 0 8 0 4 false).status = MICROBIT_OK ∧
    (write 5 (fun i => if i < 5 then 1 else 0) 0 8 0 4 false).status = MICROBIT_OK ∧
    MICROBIT_OK ≠ MICROBIT_I2C_ERROR := by
  refine ⟨by decide, by decide, ?_, ?_, by decide⟩
  · simp [read, readLoop]
  · simp [write, writeLoop]

/-- C2, amended: if the retry counter is 0 on entry and the primitive fails on
exactly its first `k` invocations and then succeeds, with `k > MAX_RETRIES`,
then `read` and `write` return `MICROBIT_I2C_ERROR`. -/
theorem read_write_error_when_failures_exceed_bound
    (MAX_RETRIES : Nat) (prim : Nat → Int) (k : Nat)
    (address : Int) (data : Nat) (length : Int) (repeated : Bool)
    (hk : MAX_RETRIES < k) (hp : FailsThenSucceeds prim k) :
    (read MAX_RETRIES prim 0 address data length repeated).status = MICROBIT_I2C_ERROR ∧
    (write MAX_RETRIES prim 0 address data length repeated).status = MICROBIT_I2C_ERROR := by
  obtain ⟨m, hm, hfail, hstop, heq⟩ :=
    read_spec MAX_RETRIES prim 0 address data length repeated
  obtain ⟨m', hm', hfail', hstop', heq'⟩ :=
    write_spec MAX_RETRIES prim 0 address data length repeated
  have h1 := (iterations_of_failsThenSucceeds MAX_RETRIES prim k m hp (by omega) hfail
    (by simpa using hstop)).2 hk
  have h2 := (iterations_of_failsThenSucceeds MAX_RETRIES prim k m' hp (by omega) hfail'
    (by simpa using hstop')).2 hk
  rw [heq, heq']
  simp [h1.2, h2.2]

/-- C2 amended, at `MAX_RETRIES = 5` and a primitive that fails six times and
then succeeds. -/
theorem read_write_error_when_failures_exceed_bound_witness :
    (5 < 6 ∧ FailsThenSucceeds (fun i => if i < 6 then 1 else 0) 6) ∧
    ((read 5 (fun i => if i < 6 then 1 else 0) 0 8 0 4 false).status = MICROBIT_I2C_ERROR ∧
     (write 5 (fun i => if i < 6 then 1 else 0) 0 8 0 4 false).status = MICROBIT_I2C_ERROR) :=
  ⟨⟨by decide, by decide⟩,
   read_write_error_when_failures_exceed_bound 5 (fun i => if i < 6 then 1 else 0) 6 8 0 4 false
     (by decide) (by decide)⟩

/-- C3 fails as stated: with `MAX_RETRIES = 5`, counter 0 on entry and a
primitive that always fails, `read` and `write` return `MICROBIT_I2C_ERROR`
and leave the retry counter at 5; a following call entered with the counter
at 5 whose primitive fails once and then succeeds makes a single invocation
and returns `MICROBIT_I2C_ERROR`. -/
theorem retries_stay_at_bound_after_error :
    (read 5 (fun _ => 1) 0 8 0 4 false).status = MICROBIT_I2C_ERROR ∧
    (read 5 (fun _ => 1) 0 8 0 4 false).retries = 5 ∧
    (write 5 (fun _ => 1) 0 8 0 4 false).status = MICROBIT_I2C_ERROR ∧
    (write 5 (fun _ => 1) 0 8 0 4 false).retries = 5 ∧
    (read 5 (fun i => if i < 1 then 1 else 0) 5 8 0 4 false).status = MICROBIT_I2C_ERROR ∧
    (read 5 (fun i => if i < 1 then 1 else 0) 5 8 0 4 false).calls = 1 ∧
    (write 5 (fun i => if i < 1 then 1 else 0) 5 8 0 4 false).status = MICROBIT_I2C_ERROR ∧
    (write 5 (fun i => if i < 1 then 1 else 0) 5 8 0 4 false).calls = 1 := by
  refine ⟨?_, ?_, ?_, ?_, ?_, ?_, ?_, ?_⟩ <;> simp [read, readLoop, write, writeLoop]

/-- C3, amended: for a call of `read` or `write` entered with the retry counter
in `[0, MAX_RETRIES]`, the status is `MICROBIT_OK` or `MICROBIT_I2C_ERROR`;
after a call that returns `MICROBIT_OK` the retry counter is 0, and after a
call that returns `MICROBIT_I2C_ERROR` it equals `MAX_RETRIES`; a call entered
with the counter at `MAX_RETRIES` makes exactly one invocation of the
primitive (no recovery attempt). -/
theorem retries_zero_after_ok_at_bound_after_error
    (MAX_RETRIES : Nat) (prim : Nat → Int) (retries : Nat)
    (address : Int) (data : Nat) (length : Int) (repeated : Bool)
    (hr : retries ≤ MAX_RETRIES) :
    ((read MAX_RETRIES prim retries address data length repeated).status = MICROBIT_OK ∧
        (read MAX_RETRIES prim retries address data length repeated).retries = 0 ∨
      (read MAX_RETRIES prim retries address data length repeated).status = MICROBIT_I2C_ERROR ∧
        (read MAX_RETRIES prim retries address data length repeated).retries = MAX_RETRIES) ∧
    ((write MAX_RETRIES prim retries address data length repeated).status = MICROBIT_OK ∧
        (write MAX_RETRIES prim retries address data length repeated).retries = 0 ∨
      (write MAX_RETRIES prim retries address data length repeated).status = MICROBIT_I2C_ERROR ∧
        (write MAX_RETRIES prim retries address data length repeated).retries = MAX_RETRIES) ∧
    (retries = MAX_RETRIES →
      (read MAX_RETRIES prim retries address data length repeated).calls = 1 ∧
      (write MAX_RETRIES prim retries address data length repeated).calls = 1) := by
  obtain ⟨m, hm, hfail, hstop, heq⟩ :=
    read_spec MAX_RETRIES prim retries address data length repeated
  obtain ⟨m', hm', hfail', hstop', heq'⟩ :=
    write_spec MAX_RETRIES prim retries address data length repeated
  rw [heq, heq']
  refine ⟨?_, ?_, ?_⟩
  · by_cases h : prim m = 0
    · left; simp [h]
    · right
      have : MAX_RETRIES ≤ retries + m := hstop.resolve_left h
      simp only [ne_eq, h, not_false_eq_true, if_true, true_and]
      omega
  · by_cases h : prim m' = 0
    · left; simp [h]
    · right
      have : MAX_RETRIES ≤ retries + m' := hstop'.resolve_left h
      simp only [ne_eq, h, not_false_eq_true, if_true, true_and]
      omega
  · intro he
    simp only
    omega

/-- C3 amended, at `MAX_RETRIES = 5`, counter 5 on entry and a primitive that
always fails. -/
theorem retries_zero_after_ok_at_bound_after_error_witness :
    (5 ≤ 5) ∧
    (((read 5 (fun _ => 1) 5 8 0 4 false).status = MICROBIT_OK ∧
        (read 5 (fun _ => 1) 5 8 0 4 false).retries = 0 ∨
      (read 5 (fun _ => 1) 5 8 0 4 false).status = MICROBIT_I2C_ERROR ∧
        (read 5 (fun _ => 1) 5 8 0 4 false).retries = 5) ∧
    ((write 5 (fun _ => 1) 5 8 0 4 false).status = MICROBIT_OK ∧
        (write 5 (fun _ => 1) 5 8 0 4 false).retries = 0 ∨
      (write 5 (fun _ => 1) 5 8 0 4 false).status = MICROBIT_I2C_ERROR ∧
        (write 5 (fun _ => 1) 5 8 0 4 false).retries = 5) ∧
    ((5 : Nat) = 5 →
      (read 5 (fun _ => 1) 5 8 0 4 false).calls = 1 ∧
      (write 5 (fun _ => 1) 5 8 0 4 false).calls = 1)) :=
  ⟨by decide, retries_zero_after_ok_at_bound_after_error 5 (fun _ => 1) 5 8 0 4 false (by decide)⟩

/-- C4: the hardware event trace of a call of `read` (of `write`) is the first
invocation of the primitive followed by `n` blocks, each made of the reset
sequence (clear `EVENTS_ERROR`, disable, `POWER = 0`, delay 5 microseconds,
`POWER = 1`, enable, `twi_master_init_and_clear`) immediately followed by an
invocation of the primitive with the same address, buffer, length and repeated
flag; the trace holds `n + 1` invocations of the primitive, which is the number
of invocations made, and `n` reset sequences. -/
theorem trace_is_attempt_then_reset_and_reissue_blocks
    (MAX_RETRIES : Nat) (prim : Nat → Int) (retries : Nat)
    (address : Int) (data : Nat) (length : Int) (repeated : Bool) :
    (∃ n,
      (read MAX_RETRIES prim retries address data length repeated).trace =
        Event.I2C_read address data length repeated ::
          (List.replicate n
            ([Event.EVENTS_ERROR 0, Event.ENABLE TwiEnable.Disabled, Event.POWER 0,
              Event.nrf_delay_us 5, Event.POWER 1, Event.ENABLE TwiEnable.Enabled,
              Event.twi_master_init_and_clear] ++
             [Event.I2C_read address data length repeated])).flatten ∧
      (read MAX_RETRIES prim retries address data length repeated).calls = n + 1 ∧
      (read MAX_RETRIES prim retries address data length repeated).trace.count
        (Event.I2C_read address data length repeated) = n + 1 ∧
      (read MAX_RETRIES prim retries address data length repeated).trace.count
        Event.twi_master_init_and_clear = n) ∧
    (∃ n,
      (write MAX_RETRIES prim retries address data length repeated).trace =
        Event.I2C_write address data length repeated ::
          (List.replicate n
            ([Event.EVENTS_ERROR 0, Event.ENABLE TwiEnable.Disabled, Event.POWER 0,
              Event.nrf_delay_us 5, Event.POWER 1, Event.ENABLE TwiEnable.Enabled,
              Event.twi_master_init_and_clear] ++
             [Event.I2C_write address data length repeated])).flatten ∧
      (write MAX_RETRIES prim retries address data length repeated).calls = n + 1 ∧
      (write MAX_RETRIES prim retries address data length repeated).trace.count
        (Event.I2C_write address data length repeated) = n + 1 ∧
      (write MAX_RETRIES prim retries address data length repeated).trace.count
        Event.twi_master_init_and_clear = n) := by
  obtain ⟨m, -, -, -, heq⟩ :=
    read_spec MAX_RETRIES prim retries address data length repeated
  obtain ⟨m', -, -, -, heq'⟩ :=
    write_spec MAX_RETRIES prim retries address data length repeated
  rw [heq, heq']
  refine ⟨⟨m, rfl, Nat.add_comm 1 m, ?_, ?_⟩, ⟨m', rfl, Nat.add_comm 1 m', ?_, ?_⟩⟩
  · exact count_xfer_retryTrace _ (I2C_read_not_mem_resetSequence _ _ _ _) m
  · exact count_init_retryTrace _ (by simp) m
  · exact count_xfer_retryTrace _ (I2C_write_not_mem_resetSequence _ _ _ _) m'
  · exact count_init_retryTrace _ (by simp) m'

/-- C9: `read` and `write` are total functions of the behaviour of the
primitive; a call entered with the retry counter in `[0, MAX_RETRIES]` performs
at most `MAX_RETRIES` reset cycles and at most `MAX_RETRIES + 1` invocations of
the primitive, and returns with the retry counter in `[0, MAX_RETRIES]`. -/
theorem read_write_bounded_by_max_retries
    (MAX_RETRIES : Nat) (prim : Nat → Int) (retries : Nat)
    (address : Int) (data : Nat) (length : Int) (repeated : Bool)
    (hr : retries ≤ MAX_RETRIES) :
    ((read MAX_RETRIES prim retries address data length repeated).trace.count
        Event.twi_master_init_and_clear ≤ MAX_RETRIES ∧
      (read MAX_RETRIES prim retries address data length repeated).trace.count
        (Event.I2C_read address data length repeated) ≤ MAX_RETRIES + 1 ∧
      (read MAX_RETRIES prim retries address data length repeated).calls ≤ MAX_RETRIES + 1 ∧
      (read MAX_RETRIES prim retries address data length repeated).retries ≤ MAX_RETRIES) ∧
    ((write MAX_RETRIES prim retries address data length repeated).trace.count
        Event.twi_master_init_and_clear ≤ MAX_RETRIES ∧
      (write MAX_RETRIES prim retries address data length repeated).trace.count
        (Event.I2C_write address data length repeated) ≤ MAX_RETRIES + 1 ∧
      (write MAX_RETRIES prim retries address data length repeated).calls ≤ MAX_RETRIES + 1 ∧
      (write MAX_RETRIES prim retries address data length repeated).retries ≤ MAX_RETRIES) := by
  obtain ⟨m, hm, -, -, heq⟩ :=
    read_spec MAX_RETRIES prim retries address data length repeated
  obtain ⟨m', hm', -, -, heq'⟩ :=
    write_spec MAX_RETRIES prim retries address data length repeated
  rw [heq, heq']
  refine ⟨⟨?_, ?_, ?_, ?_⟩, ⟨?_, ?_, ?_, ?_⟩⟩
  · simp only [count_init_retryTrace _ (by simp : Event.I2C_read address data length repeated
      ≠ Event.twi_master_init_and_clear) m]
    omega
  · simp only [count_xfer_retryTrace _ (I2C_read_not_mem_resetSequence _ _ _ _) m]
    omega
  · simp only; omega
  · simp only; split <;> omega
  · simp only [count_init_retryTrace _ (by simp : Event.I2C_write address data length repeated
      ≠ Event.twi_master_init_and_clear) m']
    omega
  · simp only [count_xfer_retryTrace _ (I2C_write_not_mem_resetSequence _ _ _ _) m']
    omega
  · simp only; omega
  · simp only; split <;> omega

/-- C9, at `MAX_RETRIES = 5`, counter 0 on entry and a primitive that fails on
every invocation. -/
theorem read_write_bounded_by_max_retries_witness :
    (0 ≤ 5) ∧
    (((read 5 (fun _ => 1) 0 8 0 4 false).trace.count Event.twi_master_init_and_clear ≤ 5 ∧
      (read 5 (fun _ => 1) 0 8 0 4 false).trace.count (Event.I2C_read 8 0 4 false) ≤ 5 + 1 ∧
      (read 5 (fun _ => 1) 0 8 0 4 false).calls ≤ 5 + 1 ∧
      (read 5 (fun _ => 1) 0 8 0 4 false).retries ≤ 5) ∧
    ((write 5 (fun _ => 1) 0 8 0 4 false).trace.count Event.twi_master_init_and_clear ≤ 5 ∧
      (write 5 (fun _ => 1) 0 8 0 4 false).trace.count (Event.I2C_write 8 0 4 false) ≤ 5 + 1 ∧
      (write 5 (fun _ => 1) 0 8 0 4 false).calls ≤ 5 + 1 ∧
      (write 5 (fun _ => 1) 0 8 0 4 false).retries ≤ 5)) :=
  ⟨by decide, read_write_bounded_by_max_retries 5 (fun _ => 1) 0 8 0 4 false (by decide)⟩

end MicroBitI2C

namespace CalliopeRGB

/-- C5: for all 8-bit values `red`, `green`, `blue`, `white` and every prior
driver state, after `Set_Color(red, green, blue, white)` the accessors return
`Get_Red() = red`, `Get_Green() = green`, `Get_Blue() = blue` and
`Get_White() = white`. -/
theorem getters_after_Set_Color (s : CalliopeRGB) (red green blue white : Nat)
    (hr : red < 256) (hg : green < 256) (hb : blue < 256) (hw : white < 256) :
    (s.Set_Color red green blue white).1.Get_Red = red ∧
    (s.Set_Color red green blue white).1.Get_Green = green ∧
    (s.Set_Color red green blue white).1.Get_Blue = blue ∧
    (s.Set_Color red green blue white).1.Get_White = white := by
  simp only [Get_Red, Get_Green, Get_Blue, Get_White, Set_Color_GRBW]
  refine ⟨?_, ?_, ?_, ?_⟩
  · rw [checkIntensity_of_lt _ _ (by simpa using hr)]; simp
  · rw [checkIntensity_of_lt _ _ (by simpa using hg)]; simp
  · rw [checkIntensity_of_lt _ _ (by simpa using hb)]; simp
  · rw [checkIntensity_of_lt _ _ (by simpa using hw)]; simp

/-- C5, at the scenario of the specification: `Set_Color(255, 0, 128, 0)` on
the freshly constructed driver. -/
theorem getters_after_Set_Color_witness :
    (255 < 256 ∧ 0 < 256 ∧ 128 < 256 ∧ 0 < 256) ∧
    ((new.1.Set_Color 255 0 128 0).1.Get_Red = 255 ∧
     (new.1.Set_Color 255 0 128 0).1.Get_Green = 0 ∧
     (new.1.Set_Color 255 0 128 0).1.Get_Blue = 128 ∧
     (new.1.Set_Color 255 0 128 0).1.Get_White = 0) :=
  ⟨by decide,
   getters_after_Set_Color new.1 255 0 128 0 (by decide) (by decide) (by decide) (by decide)⟩

/-- C6: for all 8-bit values `red`, `green`, `blue`, `white` and every prior
driver state, immediately after `Set_Color(red, green, blue, white)` the call
`Is_On()` returns true if and only if `red + green + blue + white > 0` (sum
over the integers); `Is_On()` is false after `Set_Color(0, 0, 0, 0)`. -/
theorem Is_On_after_Set_Color (s : CalliopeRGB) (red green blue white : Nat)
    (hr : red < 256) (hg : green < 256) (hb : blue < 256) (hw : white < 256) :
    ((s.Set_Color red green blue white).1.Is_On = true ↔ red + green + blue + white > 0) ∧
    (s.Set_Color 0 0 0 0).1.Is_On = false := by
  have key : ∀ r g b w : Nat, r < 256 → g < 256 → b < 256 → w < 256 →
      ((s.Set_Color r g b w).1.Is_On = true ↔ r + g + b + w > 0) := by
    intro r g b w hr hg hb hw
    rw [Is_On_Set_Color_iff]
    simp only [Set_Color_GRBW]
    rw [checkIntensity_of_lt _ _ (by simpa using hg), checkIntensity_of_lt _ _ (by simpa using hr),
      checkIntensity_of_lt _ _ (by simpa using hb), checkIntensity_of_lt _ _ (by simpa using hw)]
    simp only [Fin.isValue, ↓reduceIte, Fin.reduceEq]
    omega
  refine ⟨key red green blue white hr hg hb hw, ?_⟩
  have := key 0 0 0 0 (by decide) (by decide) (by decide) (by decide)
  simpa using this

/-- C6, at the scenario of the specification: `Set_Color(255, 0, 128, 0)` on
the freshly constructed driver. -/
theorem Is_On_after_Set_Color_witness :
    (255 < 256 ∧ 0 < 256 ∧ 128 < 256 ∧ 0 < 256) ∧
    (((new.1.Set_Color 255 0 128 0).1.Is_On = true ↔ 255 + 0 + 128 + 0 > 0) ∧
     (new.1.Set_Color 0 0 0 0).1.Is_On = false) :=
  ⟨by decide,
   Is_On_after_Set_Color new.1 255 0 128 0 (by decide) (by decide) (by decide) (by decide)⟩

/-- C8: for every driver state, `Off()` issues exactly one frame: the reset
condition followed by 32 short-high, long-low pulses, which decodes to the four
bytes 0, 0, 0, 0; after `Off()` the four accessors return the same values as
before the call and `Is_On()` is false. -/
theorem Off_sends_zero_frame_keeps_colour (s : CalliopeRGB) :
    s.Off.2 = [PinEvent.OUTCLR, PinEvent.nrf_delay_us 50, PinEvent.printf 0 0 0 0] ++
      (List.replicate 32 zeroPulse).flatten ∧
    decodeFrame s.Off.2 = some [0, 0, 0, 0] ∧
    s.Off.1.Get_Red = s.Get_Red ∧
    s.Off.1.Get_Green = s.Get_Green ∧
    s.Off.1.Get_Blue = s.Get_Blue ∧
    s.Off.1.Get_White = s.Get_White ∧
    s.Off.1.Is_On = false := by
  refine ⟨?_, ?_, ?_, ?_, ?_, ?_, ?_⟩
  · rw [Off_events, zero_frame_events]
  · rw [Off_events, zero_frame_decodes]
  · simp only [Get_Red, Off_GRBW]
  · simp only [Get_Green, Off_GRBW]
  · simp only [Get_Blue, Off_GRBW]
  · simp only [Get_White, Off_GRBW]
  · simp [Is_On, Off_state]

/-- C7 fails as stated: the state reached by `Set_Color(255, 0, 128, 0)` then
`Off()` has `Is_On()` false, and calling `Off()` and then `On()` on it yields
`Is_On()` true. -/
theorem Off_On_changes_Is_On_after_Off :
    (∀ op ∈ [Op.Set_Color 255 0 128 0, Op.Off], op.valid) ∧
    (run [Op.Set_Color 255 0 128 0, Op.Off]).Is_On = false ∧
    (run [Op.Set_Color 255 0 128 0, Op.Off]).Off.1.On.1.Is_On = true := by
  refine ⟨by decide, by decide, by decide⟩

/-- C7, amended: for every driver state `s` reached from construction by calls
of `Set_Color` (8-bit arguments), `On` and `Off`, calling `Off()` and then
`On()` yields a state whose four channel values equal those of `s` and whose
`Is_On()` is true exactly when the channel values of `s` are not all zero;
`Is_On()` equals that of `s` whenever the last call that produced `s` was not
`Off` (`s` is the constructed state or was returned by `Set_Color` or `On`). -/
theorem Off_then_On_restores (ops : List Op) (_hv : ∀ op ∈ ops, op.valid) :
    (run ops).Off.1.On.1.Get_Red = (run ops).Get_Red ∧
    (run ops).Off.1.On.1.Get_Green = (run ops).Get_Green ∧
    (run ops).Off.1.On.1.Get_Blue = (run ops).Get_Blue ∧
    (run ops).Off.1.On.1.Get_White = (run ops).Get_White ∧
    ((run ops).Off.1.On.1.Is_On = true ↔
      0 < (run ops).Get_Green + (run ops).Get_Red + (run ops).Get_Blue + (run ops).Get_White) ∧
    (ops.getLast? ≠ some Op.Off → (run ops).Off.1.On.1.Is_On = (run ops).Is_On) := by
  have hG := Off_On_GRBW (run ops)
  have hI := Off_On_Is_On (run ops) (run_GRBW_le ops)
  refine ⟨?_, ?_, ?_, ?_, ?_, ?_⟩
  · simp only [Get_Red, hG]
  · simp only [Get_Green, hG]
  · simp only [Get_Blue, hG]
  · simp only [Get_White, hG]
  · simpa only [Get_Red, Get_Green, Get_Blue, Get_White] using hI
  · intro hlast
    have hc : Coherent (run ops) := run_coherent ops hlast
    rw [Bool.eq_iff_iff, hI]
    exact hc.symm

/-- C7 amended, at the call sequence `Set_Color(255, 0, 128, 0)`, `Off()`,
`On()`. -/
theorem Off_then_On_restores_witness :
    (∀ op ∈ [Op.Set_Color 255 0 128 0, Op.Off, Op.On], op.valid) ∧
    ((run [Op.Set_Color 255 0 128 0, Op.Off, Op.On]).Off.1.On.1.Get_Red
        = (run [Op.Set_Color 255 0 128 0, Op.Off, Op.On]).Get_Red ∧
     (run [Op.Set_Color 255 0 128 0, Op.Off, Op.On]).Off.1.On.1.Get_Green
        = (run [Op.Set_Color 255 0 128 0, Op.Off, Op.On]).Get_Green ∧
     (run [Op.Set_Color 255 0 128 0, Op.Off, Op.On]).Off.1.On.1.Get_Blue
        = (run [Op.Set_Color 255 0 128 0, Op.Off, Op.On]).Get_Blue ∧
     (run [Op.Set_Color 255 0 128 0, Op.Off, Op.On]).Off.1.On.1.Get_White
        = (run [Op.Set_Color 255 0 128 0, Op.Off, Op.On]).Get_White ∧
     ((run [Op.Set_Color 255 0 128 0, Op.Off, Op.On]).Off.1.On.1.Is_On = true ↔
        0 < (run [Op.Set_Color 255 0 128 0, Op.Off, Op.On]).Get_Green
          + (run [Op.Set_Color 255 0 128 0, Op.Off, Op.On]).Get_Red
          + (run [Op.Set_Color 255 0 128 0, Op.Off, Op.On]).Get_Blue
          + (run [Op.Set_Color 255 0 128 0, Op.Off, Op.On]).Get_White) ∧
     ([Op.Set_Color 255 0 128 0, Op.Off, Op.On].getLast? ≠ some Op.Off →
        (run [Op.Set_Color 255 0 128 0, Op.Off, Op.On]).Off.1.On.1.Is_On
          = (run [Op.Set_Color 255 0 128 0, Op.Off, Op.On]).Is_On)) :=
  ⟨by decide, Off_then_On_restores [Op.Set_Color 255 0 128 0, Op.Off, Op.On] (by decide)⟩

/-- C10: for every stored channel state (G, R, B, W) of 8-bit values, one
`Send_to_LED` call first drives the pin low and waits 50 microseconds (then
issues its debug print) and then emits exactly 32 pulses, where pulse number
`8 * i + (7 - j)` is the long-high shape (9 NOPs high, none low) if bit `j` of
channel `i` is 1 and the short-high shape (1 NOP high, 8 NOPs low) if it is 0;
reading the frame back, most significant bit first, gives the four bytes G, R,
B, W; and the stored channel values are not modified by the call. -/
theorem Send_to_LED_frame (s : CalliopeRGB) (h : ∀ i, s.GRBW i < 256) :
    (Send_to_LED s).1.GRBW = s.GRBW ∧
    (∃ shapes : List (List PinEvent),
      shapes.length = 32 ∧
      (Send_to_LED s).2 =
        [PinEvent.OUTCLR, PinEvent.nrf_delay_us 50,
         PinEvent.printf (s.GRBW 1) (s.GRBW 0) (s.GRBW 2) (s.GRBW 3)] ++ shapes.flatten ∧
      ∀ (i : Fin 4) (j : Nat), j < 8 →
        shapes[8 * i.val + (7 - j)]? =
          some (if (s.GRBW i).testBit j = true then onePulse else zeroPulse)) ∧
    decodeFrame (Send_to_LED s).2 = some [s.GRBW 0, s.GRBW 1, s.GRBW 2, s.GRBW 3] := by
  refine ⟨rfl, ⟨channelOrder.flatMap (fun i => bitOrder.map (fun j => sendBit (s.GRBW i) j)),
    ?_, ?_, ?_⟩, ?_⟩
  · simp [channelOrder, bitOrder, List.flatMap]
  · simp [Send_to_LED, channelOrder, bitOrder, List.flatMap]
  · intro i j hj
    simp only [channelOrder, bitOrder, List.flatMap, List.map, List.flatten, List.append_nil,
      List.cons_append, List.nil_append, sendBit_eq]
    fin_cases i <;> interval_cases j <;> rfl
  · simp only [Send_to_LED, List.cons_append, List.nil_append, decodeFrame, readBytes_frame _ h]

/-- C10, at the state left by `Set_Color(255, 0, 128, 0)` on the freshly
constructed driver. -/
theorem Send_to_LED_frame_witness :
    (∀ i, (new.1.Set_Color 255 0 128 0).1.GRBW i < 256) ∧
    ((Send_to_LED (new.1.Set_Color 255 0 128 0).1).1.GRBW
        = (new.1.Set_Color 255 0 128 0).1.GRBW ∧
     (∃ shapes : List (List PinEvent),
       shapes.length = 32 ∧
       (Send_to_LED (new.1.Set_Color 255 0 128 0).1).2 =
         [PinEvent.OUTCLR, PinEvent.nrf_delay_us 50,
          PinEvent.printf ((new.1.Set_Color 255 0 128 0).1.GRBW 1)
            ((new.1.Set_Color 255 0 128 0).1.GRBW 0)
            ((new.1.Set_Color 255 0 128 0).1.GRBW 2)
            ((new.1.Set_Color 255 0 128 0).1.GRBW 3)] ++ shapes.flatten ∧
       ∀ (i : Fin 4) (j : Nat), j < 8 →
         shapes[8 * i.val + (7 - j)]? =
           some (if ((new.1.Set_Color 255 0 128 0).1.GRBW i).testBit j = true
             then onePulse else zeroPulse)) ∧
     decodeFrame (Send_to_LED (new.1.Set_Color 255 0 128 0).1).2 =
       some [(new.1.Set_Color 255 0 128 0).1.GRBW 0, (new.1.Set_Color 255 0 128 0).1.GRBW 1,
         (new.1.Set_Color 255 0 128 0).1.GRBW 2, (new.1.Set_Color 255 0 128 0).1.GRBW 3]) :=
  ⟨by decide, Send_to_LED_frame (new.1.Set_Color 255 0 128 0).1 (by decide)⟩

end CalliopeRGB

